import Mathlib

/-!
Shallow embedding of `gallifreyan.py` (Python 2): a transliterator from
Latin words to Gallifreyan letter tokens, and a circular layout engine
that turns a token list into drawing-surface commands.

Modelling conventions:
* Python strings are `String`, words are `List Char`.
* Python 2 `/` on machine ints is floor division, embedded as `Int.fdiv`
  (for the positive constants of the program any division convention
  agrees, and we use it explicitly where the operands can matter).
* `float` arithmetic is embedded as exact real arithmetic on `ℝ`;
  `int(...)` applied to a float truncates toward zero (`pytrunc`).
* Python exceptions (`ZeroDivisionError` on `360.0 / len(letters)`,
  `KeyError` on a missing `letter_shapes` entry) are modelled explicitly:
  the renderer returns the draw commands issued so far paired with an
  optional error.  `print` statements write to stdout, not to the image,
  and are not modelled.
-/

/-- The word-transliteration pass of `translate_word`: the simple letters
that map directly to an identically named token. -/
def easyLetters : List Char :=
  ['a', 'b', 'd', 'e', 'f', 'g', 'h', 'i', 'j', 'k', 'l', 'm',
   'o', 'p', 'r', 'u', 'v', 'w', 'x', 'y', 'z']

/-- Embedding of `translate_word` from `gallifreyan.py`: a left-to-right
scan with one-character lookahead, folding the digraphs ch/ck/ng/qu/sh/th,
and resolving `c` to `k` (hard) or `s` (soft).  Characters that match no
branch are skipped without emitting a token (the Python loop has no final
else clause). -/
def translate_word : List Char → List String
  | [] => []
  | 'c' :: 'h' :: rest => "ch" :: translate_word rest
  | 'c' :: 'k' :: rest => "k" :: translate_word rest
  | 'c' :: c2 :: rest =>
      if c2 ∈ ['a', 'o', 'u', 'l', 'r'] then "k" :: translate_word (c2 :: rest)
      else "s" :: translate_word (c2 :: rest)
  | ['c'] => ["k"]
  | 'n' :: 'g' :: rest => "ng" :: translate_word rest
  | 'q' :: 'u' :: rest => "qu" :: translate_word rest
  | 's' :: 'h' :: rest => "sh" :: translate_word rest
  | 't' :: 'h' :: rest => "th" :: translate_word rest
  | ch :: rest =>
      if ch ∈ easyLetters then ch.toString :: translate_word rest
      else if ch = 'n' ∨ ch = 'q' ∨ ch = 's' ∨ ch = 't' then
        ch.toString :: translate_word rest
      else translate_word rest

/-- The four circle positions of the source (`POS_ON`, `POS_IN`,
`POS_HALF`, `POS_THRU`). -/
inductive Pos where
  | POS_ON : Pos
  | POS_IN : Pos
  | POS_HALF : Pos
  | POS_THRU : Pos
deriving DecidableEq, Repr

/-- Embedding of the `letter_shapes` dictionary: shape position per token;
`none` models a missing key (a `KeyError` on lookup). -/
def letter_shapes (tok : String) : Option Pos :=
  if tok = "b" then some Pos.POS_ON
  else if tok = "ch" then some Pos.POS_ON
  else if tok = "d" then some Pos.POS_ON
  else if tok = "f" then some Pos.POS_ON
  else if tok = "g" then some Pos.POS_ON
  else if tok = "h" then some Pos.POS_ON
  else if tok = "j" then some Pos.POS_IN
  else if tok = "k" then some Pos.POS_IN
  else if tok = "l" then some Pos.POS_IN
  else if tok = "m" then some Pos.POS_IN
  else if tok = "n" then some Pos.POS_IN
  else if tok = "p" then some Pos.POS_IN
  else if tok = "t" then some Pos.POS_HALF
  else if tok = "sh" then some Pos.POS_HALF
  else if tok = "r" then some Pos.POS_HALF
  else if tok = "s" then some Pos.POS_HALF
  else if tok = "v" then some Pos.POS_HALF
  else if tok = "w" then some Pos.POS_HALF
  else if tok = "th" then some Pos.POS_THRU
  else if tok = "y" then some Pos.POS_THRU
  else if tok = "z" then some Pos.POS_THRU
  else if tok = "ng" then some Pos.POS_THRU
  else if tok = "qu" then some Pos.POS_THRU
  else if tok = "x" then some Pos.POS_THRU
  else none

/-- The closed token alphabet named by the specification (29 symbols
listed in its data model). -/
def specTokens : List String :=
  ["a", "b", "ch", "d", "e", "f", "g", "h", "i", "j", "k", "l", "m",
   "n", "ng", "o", "p", "qu", "r", "s", "sh", "t", "th", "u", "v",
   "w", "x", "y", "z"]

/-- Embedding of `ImageSize = 300`. -/
def ImageSize : ℤ := 300

/-- Embedding of `Indent = ImageSize / 8` (Python 2 integer division). -/
def Indent : ℤ := Int.fdiv ImageSize 8

/-- Embedding of `Center = ImageSize / 2`. -/
def Center : ℤ := Int.fdiv ImageSize 2

/-- Embedding of `Radius = (ImageSize - 2 * Indent) / 2`. -/
def Radius : ℤ := Int.fdiv (ImageSize - 2 * Indent) 2

/-- Embedding of `Radius2 = ImageSize / 10`. -/
def Radius2 : ℤ := Int.fdiv ImageSize 10

/-- Embedding of `Extra = Radius2`. -/
def Extra : ℤ := Radius2

/-- Python `int(...)` on a float: truncation toward zero. -/
noncomputable def pytrunc (x : ℝ) : ℤ := if 0 ≤ x then ⌊x⌋ else ⌈x⌉

/-- Embedding of `math.radians`. -/
noncomputable def radians (a : ℝ) : ℝ := a * Real.pi / 180

/-- The exact (pre-truncation) point computed inside `position`:
`(center + radius*sin(radians angle), center + radius*cos(radians angle))`. -/
noncomputable def positionReal (center radius angle : ℝ) : ℝ × ℝ :=
  (center + radius * Real.sin (radians angle),
   center + radius * Real.cos (radians angle))

/-- Embedding of `position`: the exact point with both coordinates
truncated to ints by Python `int(...)`. -/
noncomputable def position (center radius angle : ℝ) : ℤ × ℤ :=
  (pytrunc (positionReal center radius angle).1,
   pytrunc (positionReal center radius angle).2)

/-- The value `x = (d**2 - r2**2 + r1**2) / (2*d)` as the source computes
it: all three arguments are machine ints in the program, so Python 2 `/`
is floor division. -/
def x_code (r1 r2 d : ℤ) : ℤ := Int.fdiv (d ^ 2 - r2 ^ 2 + r1 ^ 2) (2 * d)

/-- The integer product under the square root in `angle_of_intersection`. -/
def sqrtArg (r1 r2 d : ℤ) : ℤ :=
  (-d + r2 - r1) * (-d - r2 + r1) * (-d + r2 + r1) * (d + r2 + r1)

/-- Embedding of `angle_of_intersection(r1, r2, d)`: `a` and the final
arctangent are float (here: real) computations, while `x` is computed by
Python 2 integer floor division because every operand is an int. -/
noncomputable def angle_of_intersection (r1 r2 d : ℤ) : ℝ :=
  Real.arctan (((Real.sqrt ((sqrtArg r1 r2 d : ℤ) : ℝ) / (d : ℝ)) / 2) /
    ((d : ℝ) - ((x_code r1 r2 d : ℤ) : ℝ))) * 180 / Real.pi

/-- Modelled from the spec: the circle-circle intersection half-angle as
the specification states it, with `x = (d² − r2² + r1²) / (2d)` an exact
(real) division. -/
noncomputable def theta_spec (r1 r2 d : ℝ) : ℝ :=
  Real.arctan (((Real.sqrt ((-d + r2 - r1) * (-d - r2 + r1) * (-d + r2 + r1) *
    (d + r2 + r1)) / d) / 2) / (d - (d ^ 2 - r2 ^ 2 + r1 ^ 2) / (2 * d))) *
    180 / Real.pi

/-- Embedding of `Theta = angle_of_intersection(Radius, Radius2 * 2, Radius + Extra)`
(a constant: every argument of the call in the letter loop is a program
constant). -/
noncomputable def Theta : ℝ := angle_of_intersection Radius (Radius2 * 2) (Radius + Extra)

/-- An abstract draw command issued against the drawing surface:
`draw.ellipse(box, outline/fill)` or `draw.arc(box, start, end)`.  Every
field the program passes is an int. -/
inductive DrawCmd where
  | ellipse (x0 y0 x1 y1 : ℤ) (filled : Bool) : DrawCmd
  | arc (x0 y0 x1 y1 : ℤ) (startA endA : ℤ) : DrawCmd
deriving DecidableEq, Repr

/-- The word-circle outline command
`draw.ellipse((Indent, Indent, ImageSize - Indent, ImageSize - Indent), outline)`. -/
def wordCircleCmd : DrawCmd :=
  DrawCmd.ellipse Indent Indent (ImageSize - Indent) (ImageSize - Indent) false

/-- The errors the program can raise while laying out a word:
`ZeroDivisionError` from `360.0 / len(letters)` on an empty token list,
and `KeyError` from a `letter_shapes` lookup of an unknown token. -/
inductive Err where
  | degenerate : Err
  | unknownToken : Err
deriving DecidableEq, Repr

/-- The draw commands one iteration of the letter loop issues for token
`tok` at slot angle `a` (degrees), or `none` when the `letter_shapes`
lookup raises `KeyError`.  POS_IN letters sit at `Radius - (Radius2+10)`,
POS_ON at `Radius - Radius2`, POS_THRU at `Radius`; POS_HALF letters sit
at `Radius + Extra`, drawn as a filled ellipse of doubled radius followed
by the arc between `int(Angle2 - Theta)` and `int(Angle2 + Theta)` with
`Angle2 = (180 - a) + 90`. -/
noncomputable def letterCmds (tok : String) (a : ℝ) : Option (List DrawCmd) :=
  match letter_shapes tok with
  | none => none
  | some Pos.POS_IN =>
      some [DrawCmd.ellipse
        ((position (Center : ℝ) ((Radius - (Radius2 + 10) : ℤ) : ℝ) a).1 - Radius2)
        ((position (Center : ℝ) ((Radius - (Radius2 + 10) : ℤ) : ℝ) a).2 - Radius2)
        ((position (Center : ℝ) ((Radius - (Radius2 + 10) : ℤ) : ℝ) a).1 + Radius2)
        ((position (Center : ℝ) ((Radius - (Radius2 + 10) : ℤ) : ℝ) a).2 + Radius2)
        false]
  | some Pos.POS_ON =>
      some [DrawCmd.ellipse
        ((position (Center : ℝ) ((Radius - Radius2 : ℤ) : ℝ) a).1 - Radius2)
        ((position (Center : ℝ) ((Radius - Radius2 : ℤ) : ℝ) a).2 - Radius2)
        ((position (Center : ℝ) ((Radius - Radius2 : ℤ) : ℝ) a).1 + Radius2)
        ((position (Center : ℝ) ((Radius - Radius2 : ℤ) : ℝ) a).2 + Radius2)
        false]
  | some Pos.POS_HALF =>
      some [DrawCmd.ellipse
        ((position (Center : ℝ) ((Radius + Extra : ℤ) : ℝ) a).1 - Radius2 * 2)
        ((position (Center : ℝ) ((Radius + Extra : ℤ) : ℝ) a).2 - Radius2 * 2)
        ((position (Center : ℝ) ((Radius + Extra : ℤ) : ℝ) a).1 + Radius2 * 2)
        ((position (Center : ℝ) ((Radius + Extra : ℤ) : ℝ) a).2 + Radius2 * 2)
        true,
        DrawCmd.arc
        ((position (Center : ℝ) ((Radius + Extra : ℤ) : ℝ) a).1 - Radius2 * 2)
        ((position (Center : ℝ) ((Radius + Extra : ℤ) : ℝ) a).2 - Radius2 * 2)
        ((position (Center : ℝ) ((Radius + Extra : ℤ) : ℝ) a).1 + Radius2 * 2)
        ((position (Center : ℝ) ((Radius + Extra : ℤ) : ℝ) a).2 + Radius2 * 2)
        (pytrunc (((180 : ℝ) - a) + 90 - Theta))
        (pytrunc (((180 : ℝ) - a) + 90 + Theta))]
  | some Pos.POS_THRU =>
      some [DrawCmd.ellipse
        ((position (Center : ℝ) ((Radius : ℤ) : ℝ) a).1 - Radius2)
        ((position (Center : ℝ) ((Radius : ℤ) : ℝ) a).2 - Radius2)
        ((position (Center : ℝ) ((Radius : ℤ) : ℝ) a).1 + Radius2)
        ((position (Center : ℝ) ((Radius : ℤ) : ℝ) a).2 + Radius2)
        false]

/-- The letter loop of the program: tokens are processed in slot order
starting at index `l`; each iteration eagerly issues its commands to the
drawing surface, and a `KeyError` aborts the loop with everything issued
so far kept.  `step` is the per-slot angle `360.0 / len(letters)`. -/
noncomputable def renderGo (step : ℝ) : List String → ℕ → List DrawCmd × Option Err
  | [], _ => ([], none)
  | t :: rest, l =>
      match letterCmds t (step * (l : ℝ)) with
      | none => ([], some Err.unknownToken)
      | some cs =>
          ((cs ++ (renderGo step rest (l + 1)).1), (renderGo step rest (l + 1)).2)

/-- The whole rendering pass of the program in source order: first
`Arc = 360.0 / len(letters)` (raising `ZeroDivisionError` on an empty
token list before anything is drawn), then the word-circle outline, then
the letter loop.  Returns the commands issued to the drawing surface
before any exception, together with the exception if one was raised. -/
noncomputable def render (ts : List String) : List DrawCmd × Option Err :=
  if ts.length = 0 then ([], some Err.degenerate)
  else (wordCircleCmd :: (renderGo (360 / (ts.length : ℝ)) ts 0).1,
        (renderGo (360 / (ts.length : ℝ)) ts 0).2)

/-- The command list of a successful layout, `none` when the program
raises. -/
noncomputable def layoutCmds (ts : List String) : Option (List DrawCmd) :=
  match render ts with
  | (cs, none) => some cs
  | (_, some _) => none

/-- The lowercase Latin alphabet. -/
def alphabetChars : List Char :=
  ['a','b','c','d','e','f','g','h','i','j','k','l','m',
   'n','o','p','q','r','s','t','u','v','w','x','y','z']

/-- Number of POS_HALF tokens in a list. -/
def countHalf (ts : List String) : ℕ :=
  ts.countP (fun t => letter_shapes t == some Pos.POS_HALF)

/-- Squared distance between two rational points. -/
def sqDistQ (p q : ℚ × ℚ) : ℚ := (p.1 - q.1) ^ 2 + (p.2 - q.2) ^ 2

/-- The center of an ellipse command's bounding box. -/
def ellipseBoxCenter : DrawCmd → Option (ℚ × ℚ)
  | DrawCmd.ellipse x0 y0 x1 y1 _ => some (((x0 : ℚ) + (x1 : ℚ)) / 2, ((y0 : ℚ) + (y1 : ℚ)) / 2)
  | DrawCmd.arc _ _ _ _ _ _ => none

/-- Whether the command at index `i` of a successful layout, if it is an
arc, has start and end angles symmetric about `b` (vacuously true
otherwise). -/
def arcSymmAt (ocs : Option (List DrawCmd)) (i : ℕ) (b : ℝ) : Prop :=
  match ocs with
  | none => True
  | some cs =>
      match cs.get? i with
      | some (DrawCmd.arc _ _ _ _ s e) => (e : ℝ) - b = b - (s : ℝ)
      | _ => True

lemma tw_nil : translate_word [] = [] := rfl

lemma tw_ch (r : List Char) : translate_word ('c' :: 'h' :: r) = "ch" :: translate_word r := rfl

lemma tw_ck (r : List Char) : translate_word ('c' :: 'k' :: r) = "k" :: translate_word r := rfl

lemma tw_hardc (x : Char) (r : List Char) (h : x ∈ ['a', 'o', 'u', 'l', 'r']) :
    translate_word ('c' :: x :: r) = "k" :: translate_word (x :: r) := by
  fin_cases h <;> rfl

lemma tw_softc (x : Char) (r : List Char) (h1 : x ≠ 'h') (h2 : x ≠ 'k')
    (h3 : x ∉ ['a', 'o', 'u', 'l', 'r']) :
    translate_word ('c' :: x :: r) = "s" :: translate_word (x :: r) := by
  rw [translate_word.eq_def]
  simp_all

lemma tw_c_last : translate_word ['c'] = ["k"] := rfl

lemma tw_ng (r : List Char) : translate_word ('n' :: 'g' :: r) = "ng" :: translate_word r := rfl

lemma tw_qu (r : List Char) : translate_word ('q' :: 'u' :: r) = "qu" :: translate_word r := rfl

lemma tw_sh (r : List Char) : translate_word ('s' :: 'h' :: r) = "sh" :: translate_word r := rfl

lemma tw_th (r : List Char) : translate_word ('t' :: 'h' :: r) = "th" :: translate_word r := rfl

lemma tw_easy (c : Char) (r : List Char) (h : c ∈ easyLetters) :
    translate_word (c :: r) = c.toString :: translate_word r := by
  fin_cases h <;> rfl

lemma tw_n (r : List Char) (h : ∀ r2, r ≠ 'g' :: r2) :
    translate_word ('n' :: r) = "n" :: translate_word r := by
  cases r with
  | nil => rfl
  | cons a r2 =>
      rw [translate_word.eq_def]
      have := h r2
      simp_all
      decide

lemma tw_q (r : List Char) (h : ∀ r2, r ≠ 'u' :: r2) :
    translate_word ('q' :: r) = "q" :: translate_word r := by
  cases r with
  | nil => rfl
  | cons a r2 =>
      rw [translate_word.eq_def]
      have := h r2
      simp_all
      decide

lemma tw_s (r : List Char) (h : ∀ r2, r ≠ 'h' :: r2) :
    translate_word ('s' :: r) = "s" :: translate_word r := by
  cases r with
  | nil => rfl
  | cons a r2 =>
      rw [translate_word.eq_def]
      have := h r2
      simp_all
      decide

lemma tw_t (r : List Char) (h : ∀ r2, r ≠ 'h' :: r2) :
    translate_word ('t' :: r) = "t" :: translate_word r := by
  cases r with
  | nil => rfl
  | cons a r2 =>
      rw [translate_word.eq_def]
      have := h r2
      simp_all
      decide

lemma tw_skip (c : Char) (r : List Char) (hc : c ≠ 'c') (he : c ∉ easyLetters)
    (hn : ¬(c = 'n' ∨ c = 'q' ∨ c = 's' ∨ c = 't')) :
    translate_word (c :: r) = translate_word r := by
  rw [translate_word.eq_def]
  rcases r with _ | ⟨a, r2⟩ <;> simp_all

lemma vowel_token_mem (c : Char) (hc : c ∈ ['a', 'e', 'i', 'o']) :
    ∀ w : List Char, c ∈ w → c.toString ∈ translate_word w := by
  intro w
  induction w using translate_word.induct with
  | case1 => intro hw; simp at hw
  | case2 rest ih =>
      intro hw
      have : c ∈ rest := by fin_cases hc <;> simp_all
      rw [tw_ch]
      exact List.mem_cons_of_mem _ (ih this)
  | case3 rest ih =>
      intro hw
      have : c ∈ rest := by fin_cases hc <;> simp_all
      rw [tw_ck]
      exact List.mem_cons_of_mem _ (ih this)
  | case4 c2 rest h1 h2 h3 ih =>
      intro hw
      have : c ∈ c2 :: rest := by fin_cases hc <;> simp_all
      rw [tw_hardc c2 rest h3]
      exact List.mem_cons_of_mem _ (ih this)
  | case5 c2 rest h1 h2 h3 ih =>
      intro hw
      have : c ∈ c2 :: rest := by fin_cases hc <;> simp_all
      rw [tw_softc c2 rest (fun h => h1 h) (fun h => h2 h) h3]
      exact List.mem_cons_of_mem _ (ih this)
  | case6 =>
      intro hw
      have : False := by fin_cases hc <;> simp_all
      exact this.elim
  | case7 rest ih =>
      intro hw
      have : c ∈ rest := by fin_cases hc <;> simp_all
      rw [tw_ng]
      exact List.mem_cons_of_mem _ (ih this)
  | case8 rest ih =>
      intro hw
      have : c ∈ rest := by fin_cases hc <;> simp_all
      rw [tw_qu]
      exact List.mem_cons_of_mem _ (ih this)
  | case9 rest ih =>
      intro hw
      have : c ∈ rest := by fin_cases hc <;> simp_all
      rw [tw_sh]
      exact List.mem_cons_of_mem _ (ih this)
  | case10 rest ih =>
      intro hw
      have : c ∈ rest := by fin_cases hc <;> simp_all
      rw [tw_th]
      exact List.mem_cons_of_mem _ (ih this)
  | case11 ch rest hc1 hc2 hc3 hc4 hn hq hs htt heasy ih =>
      intro hw
      rw [tw_easy ch rest heasy]
      rcases List.mem_cons.mp hw with rfl | h
      · exact List.mem_cons_self _ _
      · exact List.mem_cons_of_mem _ (ih h)
  | case12 ch rest hc1 hc2 hc3 hc4 hn hq hs htt heasy hsnd ih =>
      intro hw
      have hcr : c ∈ rest := by
        rcases List.mem_cons.mp hw with rfl | h
        · exact absurd hsnd (by fin_cases hc <;> decide)
        · exact h
      rcases hsnd with rfl | rfl | rfl | rfl
      · rw [tw_n rest (fun r2 hr => hn r2 rfl hr)]
        exact List.mem_cons_of_mem _ (ih hcr)
      · rw [tw_q rest (fun r2 hr => hq r2 rfl hr)]
        exact List.mem_cons_of_mem _ (ih hcr)
      · rw [tw_s rest (fun r2 hr => hs r2 rfl hr)]
        exact List.mem_cons_of_mem _ (ih hcr)
      · rw [tw_t rest (fun r2 hr => htt r2 rfl hr)]
        exact List.mem_cons_of_mem _ (ih hcr)
  | case13 ch rest hc1 hc2 hc3 hc4 hn hq hs htt heasy hsnd ih =>
      intro hw
      have hchc : ch ≠ 'c' := by
        intro hcc
        cases rest with
        | nil => exact hc4 hcc rfl
        | cons a r2 => exact hc3 a r2 hcc rfl
      have hcr : c ∈ rest := by
        rcases List.mem_cons.mp hw with rfl | h
        · exact absurd heasy (by fin_cases hc <;> decide)
        · exact h
      rw [tw_skip ch rest hchc heasy hsnd]
      exact ih hcr

lemma shapes_t : letter_shapes "t" = some Pos.POS_HALF := by decide

lemma shapes_b : letter_shapes "b" = some Pos.POS_ON := by decide

lemma shapes_qu : letter_shapes "qu" = some Pos.POS_THRU := by decide

lemma letterCmds_eq_none (t : String) (a : ℝ) (h : letter_shapes t = none) :
    letterCmds t a = none := by
  simp [letterCmds, h]

lemma letterCmds_length (t : String) (a : ℝ) (p : Pos) (h : letter_shapes t = some p) :
    ∃ cs, letterCmds t a = some cs ∧
      cs.length = (if p = Pos.POS_HALF then 2 else 1) := by
  cases p <;> simp [letterCmds, h]

lemma letterCmds_shape (tok : String) (a : ℝ) (p : Pos) (h : letter_shapes tok = some p) :
    (letter_shapes tok = some Pos.POS_HALF ∧
      ∃ x0 y0 x1 y1 s e : ℤ, letterCmds tok a =
        some [DrawCmd.ellipse x0 y0 x1 y1 true, DrawCmd.arc x0 y0 x1 y1 s e]) ∨
    (letter_shapes tok ≠ some Pos.POS_HALF ∧
      ∃ x0 y0 x1 y1 : ℤ, letterCmds tok a = some [DrawCmd.ellipse x0 y0 x1 y1 false]) := by
  cases p with
  | POS_HALF =>
      left
      refine ⟨h, (position (Center : ℝ) ((Radius + Extra : ℤ) : ℝ) a).1 - Radius2 * 2,
        (position (Center : ℝ) ((Radius + Extra : ℤ) : ℝ) a).2 - Radius2 * 2,
        (position (Center : ℝ) ((Radius + Extra : ℤ) : ℝ) a).1 + Radius2 * 2,
        (position (Center : ℝ) ((Radius + Extra : ℤ) : ℝ) a).2 + Radius2 * 2,
        pytrunc (((180 : ℝ) - a) + 90 - Theta), pytrunc (((180 : ℝ) - a) + 90 + Theta), ?_⟩
      simp [letterCmds, h]
  | POS_ON =>
      right
      refine ⟨by simp [h], (position (Center : ℝ) ((Radius - Radius2 : ℤ) : ℝ) a).1 - Radius2,
        (position (Center : ℝ) ((Radius - Radius2 : ℤ) : ℝ) a).2 - Radius2,
        (position (Center : ℝ) ((Radius - Radius2 : ℤ) : ℝ) a).1 + Radius2,
        (position (Center : ℝ) ((Radius - Radius2 : ℤ) : ℝ) a).2 + Radius2, ?_⟩
      simp [letterCmds, h]
  | POS_IN =>
      right
      refine ⟨by simp [h],
        (position (Center : ℝ) ((Radius - (Radius2 + 10) : ℤ) : ℝ) a).1 - Radius2,
        (position (Center : ℝ) ((Radius - (Radius2 + 10) : ℤ) : ℝ) a).2 - Radius2,
        (position (Center : ℝ) ((Radius - (Radius2 + 10) : ℤ) : ℝ) a).1 + Radius2,
        (position (Center : ℝ) ((Radius - (Radius2 + 10) : ℤ) : ℝ) a).2 + Radius2, ?_⟩
      simp [letterCmds, h]
  | POS_THRU =>
      right
      refine ⟨by simp [h], (position (Center : ℝ) ((Radius : ℤ) : ℝ) a).1 - Radius2,
        (position (Center : ℝ) ((Radius : ℤ) : ℝ) a).2 - Radius2,
        (position (Center : ℝ) ((Radius : ℤ) : ℝ) a).1 + Radius2,
        (position (Center : ℝ) ((Radius : ℤ) : ℝ) a).2 + Radius2, ?_⟩
      simp [letterCmds, h]

lemma renderGo_err (step : ℝ) :
    ∀ (ts : List String) (l : ℕ), (∃ t ∈ ts, letter_shapes t = none) →
      (renderGo step ts l).2 = some Err.unknownToken := by
  intro ts
  induction ts with
  | nil => intro l h; simp at h
  | cons t rest ih =>
      intro l h
      rcases h with ⟨u, hu, hnone⟩
      rcases List.mem_cons.mp hu with rfl | hmem
      · simp [renderGo, letterCmds_eq_none u _ hnone]
      · rw [renderGo]
        cases hc : letterCmds t (step * (l : ℝ)) with
        | none => rfl
        | some cs => simpa using ih (l + 1) ⟨u, hmem, hnone⟩

lemma renderGo_ok (step : ℝ) :
    ∀ (ts : List String) (l : ℕ), (∀ t ∈ ts, (letter_shapes t).isSome) →
      (renderGo step ts l).2 = none ∧
        (renderGo step ts l).1.length = ts.length + countHalf ts := by
  intro ts
  induction ts with
  | nil => intro l _; simp [renderGo, countHalf]
  | cons t rest ih =>
      intro l h
      have ht : (letter_shapes t).isSome := h t (by simp)
      rcases Option.isSome_iff_exists.mp ht with ⟨p, hp⟩
      rcases letterCmds_length t (step * (l : ℝ)) p hp with ⟨cs, hcs, hlen⟩
      obtain ⟨ih1, ih2⟩ := ih (l + 1) (fun u hu => h u (by simp [hu]))
      rw [renderGo, hcs]
      constructor
      · simpa using ih1
      · simp only [List.length_append, ih2, hlen, countHalf, List.countP_cons]
        by_cases hhalf : p = Pos.POS_HALF
        · subst hhalf
          simp [countHalf, hp]
          omega
        · have : (letter_shapes t == some Pos.POS_HALF) = false := by
            simp [hp]
            intro hcon
            exact absurd hcon hhalf
          simp [countHalf, this, hhalf]
          omega

lemma renderGo_blocks (step : ℝ) :
    ∀ (ts : List String) (l : ℕ), (∀ t ∈ ts, (letter_shapes t).isSome) →
      ∃ css : List (List DrawCmd),
        (renderGo step ts l).1 = css.flatten ∧ css.length = ts.length ∧
        ∀ (i : ℕ) (tok : String), ts.get? i = some tok →
          css.get? i = letterCmds tok (step * (((l + i : ℕ)) : ℝ)) := by
  intro ts
  induction ts with
  | nil =>
      intro l _
      exact ⟨[], by simp [renderGo], by simp, by intro i tok h; simp at h⟩
  | cons t rest ih =>
      intro l h
      have ht : (letter_shapes t).isSome := h t (by simp)
      rcases Option.isSome_iff_exists.mp ht with ⟨p, hp⟩
      rcases letterCmds_length t (step * (l : ℝ)) p hp with ⟨cs, hcs, _⟩
      obtain ⟨css, hjoin, hlen, hblocks⟩ := ih (l + 1) (fun u hu => h u (by simp [hu]))
      refine ⟨cs :: css, ?_, by simp [hlen], ?_⟩
      · rw [renderGo, hcs]
        simp [hjoin]
      · intro i tok hi
        cases i with
        | zero =>
            simp only [List.get?] at hi
            injection hi with hi
            subst hi
            simp only [List.get?, Nat.add_zero]
            exact hcs.symm
        | succ n =>
            have hb := hblocks n tok (by simpa using hi)
            simp only [List.get?]
            rw [hb, show l + 1 + n = l + (n + 1) by omega]

lemma renderGo_append_bad (step : ℝ) :
    ∀ (pre : List String) (t : String) (rest : List String) (l : ℕ),
      (∀ p ∈ pre, (letter_shapes p).isSome) → letter_shapes t = none →
      renderGo step (pre ++ t :: rest) l =
        ((renderGo step pre l).1, some Err.unknownToken) := by
  intro pre
  induction pre with
  | nil =>
      intro t rest l _ hnone
      simp [renderGo, letterCmds_eq_none t _ hnone]
  | cons p pre2 ih =>
      intro t rest l hpre hnone
      have hp : (letter_shapes p).isSome := hpre p (by simp)
      rcases Option.isSome_iff_exists.mp hp with ⟨q, hq⟩
      rcases letterCmds_length p (step * (l : ℝ)) q hq with ⟨cs, hcs, _⟩
      have := ih t rest (l + 1) (fun u hu => hpre u (by simp [hu])) hnone
      simp only [List.cons_append, renderGo, hcs, List.append_eq, this]

lemma Radius_eq : Radius = 113 := by decide

lemma Radius2_eq : Radius2 = 30 := by decide

lemma Indent_eq : Indent = 37 := by decide

lemma Center_eq : Center = 150 := by decide

lemma Extra_eq : Extra = 30 := by decide

lemma pytrunc_intCast (n : ℤ) : pytrunc ((n : ℤ) : ℝ) = n := by
  unfold pytrunc
  split <;> simp

lemma positionReal_sq_dist (c r a : ℝ) :
    ((positionReal c r a).1 - c) ^ 2 + ((positionReal c r a).2 - c) ^ 2 = r ^ 2 := by
  simp only [positionReal]
  have h := Real.sin_sq_add_cos_sq (radians a)
  nlinarith [h]

lemma x_code_val : x_code 113 60 143 = 103 := by decide

lemma sqrtArg_val : sqrtArg 113 60 143 = 167227200 := by decide

lemma angle_of_intersection_val :
    angle_of_intersection 113 60 143 =
      Real.arctan (Real.sqrt 167227200 / 11440) * 180 / Real.pi := by
  rw [angle_of_intersection, x_code_val, sqrtArg_val]
  norm_num
  ring_nf

lemma theta_spec_val :
    theta_spec 113 60 143 =
      Real.arctan (Real.sqrt 167227200 / 11280) * 180 / Real.pi := by
  rw [theta_spec]
  norm_num
  ring_nf

lemma theta_code_lt_spec :
    angle_of_intersection 113 60 143 < theta_spec 113 60 143 := by
  rw [angle_of_intersection_val, theta_spec_val]
  have hs : 0 < Real.sqrt 167227200 := Real.sqrt_pos.mpr (by norm_num)
  have harg : Real.sqrt 167227200 / 11440 < Real.sqrt 167227200 / 11280 :=
    div_lt_div_of_pos_left hs (by norm_num) (by norm_num)
  have harctan := Real.arctan_strictMono harg
  have hpi : (0 : ℝ) < 180 / Real.pi := by positivity
  rw [mul_div_assoc, mul_div_assoc]
  exact mul_lt_mul_of_pos_right harctan hpi

lemma seven_base_not_int (m : ℤ) (h : (m : ℝ) = 2 * ((180 - 360 / 7) + 90)) : False := by
  have h7 : ((7 * m : ℤ) : ℝ) = 3060 := by push_cast; rw [h]; ring_nf
  have : (7 * m : ℤ) = 3060 := by exact_mod_cast h7
  omega

/-- C1, counterexample: the claim "exactly N+1 draw commands" fails on the
single-token sequence ["t"]: "t" is a HALF_RIM letter and the loop issues
two commands for it (a filled ellipse and an arc), so the layout has 3
commands, not 1 + 1 = 2. -/
theorem layout_count_cex :
    (layoutCmds ["t"]).map List.length = some 3 ∧
      (layoutCmds ["t"]).map List.length ≠ some (["t"].length + 1) := by
  constructor
  · simp [layoutCmds, render, renderGo, letterCmds, shapes_t]
  · simp [layoutCmds, render, renderGo, letterCmds, shapes_t]

/-- C1, amended: for every non-empty token sequence in which every token
has a style entry, the layout succeeds and emits the word-circle outline
first, followed by one block of commands per token in slot order (the
i-th block being exactly the commands of token i at slot angle
`360/N * i`), where a HALF_RIM token's block is a filled ellipse followed
by an arc and every other token's block is a single outline ellipse, for
a total of 1 + N + H commands with H the number of HALF_RIM tokens. -/
theorem layout_count_amended (ts : List String) (h1 : ts ≠ [])
    (h2 : ∀ t ∈ ts, (letter_shapes t).isSome) :
    ∃ css : List (List DrawCmd),
      layoutCmds ts = some (wordCircleCmd :: css.flatten) ∧
      css.length = ts.length ∧
      (∀ (i : ℕ) (tok : String), ts.get? i = some tok →
        css.get? i = letterCmds tok ((360 / (ts.length : ℝ)) * (i : ℝ)) ∧
        ((letter_shapes tok = some Pos.POS_HALF ∧
            ∃ x0 y0 x1 y1 s e : ℤ, css.get? i =
              some [DrawCmd.ellipse x0 y0 x1 y1 true, DrawCmd.arc x0 y0 x1 y1 s e]) ∨
         (letter_shapes tok ≠ some Pos.POS_HALF ∧
            ∃ x0 y0 x1 y1 : ℤ, css.get? i = some [DrawCmd.ellipse x0 y0 x1 y1 false]))) ∧
      (wordCircleCmd :: css.flatten).length = 1 + ts.length + countHalf ts := by
  obtain ⟨he, hlen⟩ := renderGo_ok (360 / (ts.length : ℝ)) ts 0 h2
  obtain ⟨css, hjoin, hclen, hblocks⟩ := renderGo_blocks (360 / (ts.length : ℝ)) ts 0 h2
  have hne : ts.length ≠ 0 := fun h0 => h1 (List.length_eq_zero.mp h0)
  refine ⟨css, ?_, hclen, ?_, ?_⟩
  · rw [← hjoin]
    simp [layoutCmds, render, hne, he]
  · intro i tok hi
    have hb := hblocks i tok hi
    rw [Nat.zero_add] at hb
    refine ⟨hb, ?_⟩
    have htok : tok ∈ ts := List.get?_mem hi
    rcases Option.isSome_iff_exists.mp (h2 tok htok) with ⟨p, hp⟩
    have hshape := letterCmds_shape tok ((360 / (ts.length : ℝ)) * (i : ℝ)) p hp
    rw [← hb] at hshape
    exact hshape
  · rw [← hjoin]
    simp [hlen]
    omega

/-- Witness for C1's amended theorem at the concrete sequence ["t"]. -/
theorem layout_count_amended_witness :
    (["t"] : List String) ≠ [] ∧ (∀ t ∈ (["t"] : List String), (letter_shapes t).isSome) ∧
      ∃ css : List (List DrawCmd),
        layoutCmds ["t"] = some (wordCircleCmd :: css.flatten) ∧
        css.length = (["t"] : List String).length ∧
        (∀ (i : ℕ) (tok : String), (["t"] : List String).get? i = some tok →
          css.get? i = letterCmds tok ((360 / ((["t"] : List String).length : ℝ)) * (i : ℝ)) ∧
          ((letter_shapes tok = some Pos.POS_HALF ∧
              ∃ x0 y0 x1 y1 s e : ℤ, css.get? i =
                some [DrawCmd.ellipse x0 y0 x1 y1 true, DrawCmd.arc x0 y0 x1 y1 s e]) ∨
           (letter_shapes tok ≠ some Pos.POS_HALF ∧
              ∃ x0 y0 x1 y1 : ℤ, css.get? i = some [DrawCmd.ellipse x0 y0 x1 y1 false]))) ∧
        (wordCircleCmd :: css.flatten).length =
          1 + (["t"] : List String).length + countHalf ["t"] :=
  ⟨by decide, by decide, layout_count_amended ["t"] (by decide) (by decide)⟩

/-- C2 (confirmed): the transliterator resolves a leading `c` exactly as
claimed: `ch` consumes two characters, `ck` becomes `k` consuming two,
a `c` before one of a/o/u/l/r or at the end of the word becomes `k`
consuming one, any other `c` becomes `s` consuming one; and the three
quoted test vectors hold. -/
theorem translate_c_rules :
    (∀ r : List Char, translate_word ('c' :: 'h' :: r) = "ch" :: translate_word r) ∧
    (∀ r : List Char, translate_word ('c' :: 'k' :: r) = "k" :: translate_word r) ∧
    (∀ (x : Char) (r : List Char), x ∈ ['a', 'o', 'u', 'l', 'r'] →
      translate_word ('c' :: x :: r) = "k" :: translate_word (x :: r)) ∧
    translate_word ['c'] = ["k"] ∧
    (∀ (x : Char) (r : List Char), x ∉ ['h', 'k', 'a', 'o', 'u', 'l', 'r'] →
      translate_word ('c' :: x :: r) = "s" :: translate_word (x :: r)) ∧
    translate_word ['c', 'k'] = ["k"] ∧
    translate_word ['c', 'a', 't'] = ["k", "a", "t"] ∧
    translate_word ['c', 'e', 'l', 'l'] = ["s", "e", "l", "l"] := by
  refine ⟨tw_ch, tw_ck, tw_hardc, tw_c_last, ?_, by decide, by decide, by decide⟩
  intro x r hx
  simp only [List.mem_cons, not_or] at hx
  obtain ⟨h1, h2, h3, h4, h5, h6, h7, _⟩ := hx
  exact tw_softc x r h1 h2 (by simp [h3, h4, h5, h6, h7])

/-- Witness for C2 at concrete inputs: rest = ['x'] for the digraph rules,
the hard-c rule at 'a', and the soft-c rule at 'e'. -/
theorem translate_c_rules_witness :
    translate_word ['c', 'h', 'x'] = "ch" :: translate_word ['x'] ∧
      translate_word ['c', 'k', 'x'] = "k" :: translate_word ['x'] ∧
      ('a' : Char) ∈ ['a', 'o', 'u', 'l', 'r'] ∧
      translate_word ['c', 'a'] = "k" :: translate_word ['a'] ∧
      ('e' : Char) ∉ ['h', 'k', 'a', 'o', 'u', 'l', 'r'] ∧
      translate_word ['c', 'e'] = "s" :: translate_word ['e'] :=
  ⟨translate_c_rules.1 ['x'], translate_c_rules.2.1 ['x'], by decide,
    translate_c_rules.2.2.1 'a' [] (by decide), by decide,
    translate_c_rules.2.2.2.2.1 'e' [] (by decide)⟩

/-- C3, counterexample: the word "q" is transliterated to the bare token
"q", which is not in the closed 29-symbol alphabet of the specification. -/
theorem bare_q_cex : translate_word ['q'] = ["q"] ∧ "q" ∉ specTokens := by decide

/-- C3, amended: every token the transliterator produces, for any input
word, lies in the specification's closed token set extended with the bare
token "q" (produced for a `q` not followed by `u`). -/
theorem translate_word_tokens (w : List Char) :
    ∀ t ∈ translate_word w, t ∈ "q" :: specTokens := by
  induction w using translate_word.induct with
  | case1 => intro t ht; simp [tw_nil] at ht
  | case2 rest ih =>
      intro t ht
      rw [tw_ch] at ht
      rcases List.mem_cons.mp ht with rfl | h
      · decide
      · exact ih t h
  | case3 rest ih =>
      intro t ht
      rw [tw_ck] at ht
      rcases List.mem_cons.mp ht with rfl | h
      · decide
      · exact ih t h
  | case4 c2 rest h1 h2 h3 ih =>
      intro t ht
      rw [tw_hardc c2 rest h3] at ht
      rcases List.mem_cons.mp ht with rfl | h
      · decide
      · exact ih t h
  | case5 c2 rest h1 h2 h3 ih =>
      intro t ht
      rw [tw_softc c2 rest (fun h => h1 h) (fun h => h2 h) h3] at ht
      rcases List.mem_cons.mp ht with rfl | h
      · decide
      · exact ih t h
  | case6 =>
      intro t ht
      rw [tw_c_last] at ht
      rcases List.mem_cons.mp ht with rfl | h
      · decide
      · simp at h
  | case7 rest ih =>
      intro t ht
      rw [tw_ng] at ht
      rcases List.mem_cons.mp ht with rfl | h
      · decide
      · exact ih t h
  | case8 rest ih =>
      intro t ht
      rw [tw_qu] at ht
      rcases List.mem_cons.mp ht with rfl | h
      · decide
      · exact ih t h
  | case9 rest ih =>
      intro t ht
      rw [tw_sh] at ht
      rcases List.mem_cons.mp ht with rfl | h
      · decide
      · exact ih t h
  | case10 rest ih =>
      intro t ht
      rw [tw_th] at ht
      rcases List.mem_cons.mp ht with rfl | h
      · decide
      · exact ih t h
  | case11 ch rest hc1 hc2 hc3 hc4 hn hq hs htt heasy ih =>
      intro t ht
      rw [tw_easy ch rest heasy] at ht
      rcases List.mem_cons.mp ht with rfl | h
      · fin_cases heasy <;> decide
      · exact ih t h
  | case12 ch rest hc1 hc2 hc3 hc4 hn hq hs htt heasy hsnd ih =>
      intro t ht
      rcases hsnd with rfl | rfl | rfl | rfl
      · rw [tw_n rest (fun r2 hr => hn r2 rfl hr)] at ht
        rcases List.mem_cons.mp ht with rfl | h
        · decide
        · exact ih t h
      · rw [tw_q rest (fun r2 hr => hq r2 rfl hr)] at ht
        rcases List.mem_cons.mp ht with rfl | h
        · decide
        · exact ih t h
      · rw [tw_s rest (fun r2 hr => hs r2 rfl hr)] at ht
        rcases List.mem_cons.mp ht with rfl | h
        · decide
        · exact ih t h
      · rw [tw_t rest (fun r2 hr => htt r2 rfl hr)] at ht
        rcases List.mem_cons.mp ht with rfl | h
        · decide
        · exact ih t h
  | case13 ch rest hc1 hc2 hc3 hc4 hn hq hs htt heasy hsnd ih =>
      intro t ht
      have hc : ch ≠ 'c' := by
        intro hcc
        cases rest with
        | nil => exact hc4 hcc rfl
        | cons a r2 => exact hc3 a r2 hcc rfl
      rw [tw_skip ch rest hc heasy hsnd] at ht
      exact ih t ht

/-- Witness for C3's amended theorem at the word "cat" and its token "k". -/
theorem translate_word_tokens_witness :
    "k" ∈ translate_word ['c', 'a', 't'] ∧ "k" ∈ "q" :: specTokens :=
  ⟨by decide, translate_word_tokens ['c', 'a', 't'] "k" (by decide)⟩

/-- C4, counterexample: for the ON_RIM token "b" at slot angle 0 the
emitted letter circle is centered at (150, 233), whose squared distance
from the word-circle center (150, 150) is 83² = 6889, not the squared
word-circle radius 113² = 12769: the ON_RIM letter is NOT centered on the
rim. -/
theorem on_rim_center_cex :
    ((layoutCmds ["b"]).bind (fun cs => cs.get? 1)).bind ellipseBoxCenter =
        some (150, 233) ∧
      sqDistQ (150, 233) ((Center : ℚ), (Center : ℚ)) = 6889 ∧
      (6889 : ℚ) ≠ ((Radius : ℤ) : ℚ) ^ 2 := by
  refine ⟨?_, ?_, ?_⟩
  · simp [layoutCmds, render, renderGo, letterCmds, shapes_b, position, positionReal,
      radians]
    norm_num [pytrunc, Center_eq, Radius_eq, Radius2_eq, ellipseBoxCenter]
  · norm_num [sqDistQ, Center_eq]
  · norm_num [Radius_eq]

/-- C4, amended: an ON_RIM letter circle is centered at exact distance
`Radius - Radius2` from the word-circle center (tangent to the rim from
the inside), its emitted center being that exact point truncated
per-coordinate to ints; it is the THROUGH_RIM letters whose exact centers
lie at distance `Radius`, i.e. exactly on the rim. -/
theorem on_rim_placement (tok : String) (a : ℝ)
    (h : letter_shapes tok = some Pos.POS_ON) :
    (∃ p : ℤ × ℤ, p = position (Center : ℝ) ((Radius - Radius2 : ℤ) : ℝ) a ∧
      letterCmds tok a = some [DrawCmd.ellipse (p.1 - Radius2) (p.2 - Radius2)
        (p.1 + Radius2) (p.2 + Radius2) false]) ∧
    ((positionReal (Center : ℝ) ((Radius - Radius2 : ℤ) : ℝ) a).1 - (Center : ℝ)) ^ 2 +
      ((positionReal (Center : ℝ) ((Radius - Radius2 : ℤ) : ℝ) a).2 - (Center : ℝ)) ^ 2 =
      ((Radius - Radius2 : ℤ) : ℝ) ^ 2 ∧
    ((positionReal (Center : ℝ) ((Radius : ℤ) : ℝ) a).1 - (Center : ℝ)) ^ 2 +
      ((positionReal (Center : ℝ) ((Radius : ℤ) : ℝ) a).2 - (Center : ℝ)) ^ 2 =
      ((Radius : ℤ) : ℝ) ^ 2 := by
  refine ⟨⟨position (Center : ℝ) ((Radius - Radius2 : ℤ) : ℝ) a, rfl, ?_⟩,
    positionReal_sq_dist _ _ _, positionReal_sq_dist _ _ _⟩
  simp [letterCmds, h]

/-- Witness for C4's amended theorem at the ON_RIM token "b", slot angle 0. -/
theorem on_rim_placement_witness :
    letter_shapes "b" = some Pos.POS_ON ∧
      ((∃ p : ℤ × ℤ, p = position (Center : ℝ) ((Radius - Radius2 : ℤ) : ℝ) 0 ∧
        letterCmds "b" 0 = some [DrawCmd.ellipse (p.1 - Radius2) (p.2 - Radius2)
          (p.1 + Radius2) (p.2 + Radius2) false]) ∧
      ((positionReal (Center : ℝ) ((Radius - Radius2 : ℤ) : ℝ) 0).1 - (Center : ℝ)) ^ 2 +
        ((positionReal (Center : ℝ) ((Radius - Radius2 : ℤ) : ℝ) 0).2 - (Center : ℝ)) ^ 2 =
        ((Radius - Radius2 : ℤ) : ℝ) ^ 2 ∧
      ((positionReal (Center : ℝ) ((Radius : ℤ) : ℝ) 0).1 - (Center : ℝ)) ^ 2 +
        ((positionReal (Center : ℝ) ((Radius : ℤ) : ℝ) 0).2 - (Center : ℝ)) ^ 2 =
        ((Radius : ℤ) : ℝ) ^ 2) :=
  ⟨by decide, on_rim_placement "b" 0 (by decide)⟩

/-- C5: at the program's one and only call
`angle_of_intersection(Radius, Radius2*2, Radius+Extra) = (113, 60, 143)`,
Python 2 floors `x` to 103 by integer division, while the documented
formula gives `x = 29618/286`, which is not an integer; consequently the
angle the code computes differs from (is strictly less than) the angle of
the documented formula. -/
theorem int_div_theta_bug :
    x_code 113 60 143 = 103 ∧
      ((x_code 113 60 143 : ℤ) : ℚ) ≠ ((143 : ℚ) ^ 2 - 60 ^ 2 + 113 ^ 2) / (2 * 143) ∧
      angle_of_intersection 113 60 143 ≠ theta_spec 113 60 143 :=
  ⟨x_code_val, by rw [x_code_val]; norm_num, ne_of_lt theta_code_lt_spec⟩

/-- C6, counterexample: in the layout of the seven-token sequence
["t",...,"t"], the slot-1 HALF_RIM arc (command index 4) has integer
(truncated) start/end angles, which cannot be symmetric about its base
angle `(180 - 360/7) + 90`: symmetry would force the integer start+end to
equal `2*(270 - 360/7) = 3060/7`, which is not an integer. -/
theorem arc_symm_cex :
    ¬ arcSymmAt (layoutCmds ["t", "t", "t", "t", "t", "t", "t"]) 4
      ((180 - 360 / 7) + 90) := by
  simp only [layoutCmds, render, renderGo, letterCmds, shapes_t, List.length_cons,
    List.length_nil]
  norm_num [arcSymmAt]
  intro h
  apply seven_base_not_int
    (pytrunc (180 - 360 / 7 + 90 + Theta) + pytrunc (180 - 360 / 7 + 90 - Theta))
  push_cast
  linarith

/-- C6, amended: for a HALF_RIM token at slot angle `a` the emitted arc
spans `[int(base - θ), int(base + θ)]` with `base = (180 - a) + 90`, the
exact (untruncated) angles `base - θ` and `base + θ` being symmetric
about `base`; after the `int(...)` truncation the emitted integer angles
need not be symmetric. -/
theorem half_rim_arc_amended (tok : String) (a : ℝ)
    (h : letter_shapes tok = some Pos.POS_HALF) :
    (∃ x0 y0 x1 y1 : ℤ, letterCmds tok a = some
        [DrawCmd.ellipse x0 y0 x1 y1 true,
         DrawCmd.arc x0 y0 x1 y1 (pytrunc (((180 : ℝ) - a) + 90 - Theta))
           (pytrunc (((180 : ℝ) - a) + 90 + Theta))]) ∧
    ((((180 : ℝ) - a) + 90) + Theta) - (((180 : ℝ) - a) + 90) =
      (((180 : ℝ) - a) + 90) - ((((180 : ℝ) - a) + 90) - Theta) := by
  constructor
  · refine ⟨(position (Center : ℝ) ((Radius + Extra : ℤ) : ℝ) a).1 - Radius2 * 2,
      (position (Center : ℝ) ((Radius + Extra : ℤ) : ℝ) a).2 - Radius2 * 2,
      (position (Center : ℝ) ((Radius + Extra : ℤ) : ℝ) a).1 + Radius2 * 2,
      (position (Center : ℝ) ((Radius + Extra : ℤ) : ℝ) a).2 + Radius2 * 2, ?_⟩
    simp [letterCmds, h]
  · ring

/-- Witness for C6's amended theorem at the HALF_RIM token "t", slot angle 0. -/
theorem half_rim_arc_amended_witness :
    letter_shapes "t" = some Pos.POS_HALF ∧
      ((∃ x0 y0 x1 y1 : ℤ, letterCmds "t" 0 = some
          [DrawCmd.ellipse x0 y0 x1 y1 true,
           DrawCmd.arc x0 y0 x1 y1 (pytrunc (((180 : ℝ) - 0) + 90 - Theta))
             (pytrunc (((180 : ℝ) - 0) + 90 + Theta))]) ∧
      ((((180 : ℝ) - 0) + 90) + Theta) - (((180 : ℝ) - 0) + 90) =
        (((180 : ℝ) - 0) + 90) - ((((180 : ℝ) - 0) + 90) - Theta)) :=
  ⟨by decide, half_rim_arc_amended "t" 0 (by decide)⟩

/-- C7, counterexample: for the token sequence ["b", "a"] the layout fails
(the token "a" has no style entry), yet the word-circle outline and the
shape of "b" were already issued to the drawing surface: the failure is
not atomic. -/
theorem unknown_token_partial_cex :
    (render ["b", "a"]).2 = some Err.unknownToken ∧ (render ["b", "a"]).1 ≠ [] := by
  constructor
  · simp [render, renderGo, letterCmds, shapes_b, letter_shapes]
  · simp [render]

/-- C7, amended: when a non-empty token sequence contains a token with no
style entry, the layout aborts at the first such token with
`unknownToken`, having already emitted the word-circle outline and the
shape commands of every preceding token; no fallback shape is emitted for
the failing token and no later token is drawn.  (Only the empty-sequence
failure, which precedes the word-circle draw, emits nothing.) -/
theorem layout_failure_partial (pre : List String) (t : String) (rest : List String)
    (hpre : ∀ p ∈ pre, (letter_shapes p).isSome) (ht : letter_shapes t = none) :
    (render (pre ++ t :: rest)).2 = some Err.unknownToken ∧
      (render (pre ++ t :: rest)).1 =
        wordCircleCmd :: (renderGo (360 / ((pre ++ t :: rest).length : ℝ)) pre 0).1 := by
  have hlen : (pre ++ t :: rest).length ≠ 0 := by simp
  have hb := renderGo_append_bad (360 / ((pre ++ t :: rest).length : ℝ)) pre t rest 0 hpre ht
  have hr : render (pre ++ t :: rest) =
      (wordCircleCmd :: (renderGo (360 / ((pre ++ t :: rest).length : ℝ))
          (pre ++ t :: rest) 0).1,
        (renderGo (360 / ((pre ++ t :: rest).length : ℝ)) (pre ++ t :: rest) 0).2) := by
    rw [render, if_neg hlen]
  rw [hr, hb]
  exact ⟨rfl, rfl⟩

/-- Witness for C7's amended theorem, with pre = ["b"], failing token "a",
rest = []. -/
theorem layout_failure_partial_witness :
    (∀ p ∈ (["b"] : List String), (letter_shapes p).isSome) ∧
      letter_shapes "a" = none ∧
      ((render (["b"] ++ "a" :: [])).2 = some Err.unknownToken ∧
        (render (["b"] ++ "a" :: [])).1 =
          wordCircleCmd ::
            (renderGo (360 / (((["b"] : List String) ++ "a" :: []).length : ℝ)) ["b"] 0).1) :=
  ⟨by decide, by decide, layout_failure_partial ["b"] "a" [] (by decide) (by decide)⟩

/-- C8 (confirmed): on the empty token sequence the program raises the
division-by-zero error while computing the angular spacing, before any
draw command is issued, and the layout returns no command list. -/
theorem empty_layout_err :
    render [] = ([], some Err.degenerate) ∧ layoutCmds [] = none :=
  ⟨rfl, rfl⟩

/-- C9, counterexample: the word "qu" contains the vowel `u`, yet its
translation is the single token "qu", which has a style entry, and the
layout succeeds: not every word containing a vowel makes the layout fail. -/
theorem qu_succeeds_cex :
    'u' ∈ ['q', 'u'] ∧ translate_word ['q', 'u'] = ["qu"] ∧
      (render (translate_word ['q', 'u'])).2 = none := by
  refine ⟨by decide, by decide, ?_⟩
  have h : translate_word ['q', 'u'] = ["qu"] := by decide
  rw [h]
  simp [render, renderGo, letterCmds, shapes_qu]

/-- C9, amended: the style table has no entry for the tokens a, e, i, o, u
and bare q, which the transliterator can produce; the layout fails with
the unknown-token lookup error for every word containing one of the
vowels a, e, i, o (a `u` can be absorbed into the digraph `qu`, whose
lookup succeeds, so words containing `u` need not fail). -/
theorem vowel_layout_fails :
    (letter_shapes "a" = none ∧ letter_shapes "e" = none ∧ letter_shapes "i" = none ∧
      letter_shapes "o" = none ∧ letter_shapes "u" = none ∧ letter_shapes "q" = none) ∧
    ∀ w : List Char, (∃ c ∈ w, c ∈ ['a', 'e', 'i', 'o']) →
      (render (translate_word w)).2.isSome := by
  refine ⟨by decide, ?_⟩
  rintro w ⟨c, hcw, hc⟩
  have htok : c.toString ∈ translate_word w := vowel_token_mem c hc w hcw
  have hshape : letter_shapes c.toString = none := by fin_cases hc <;> decide
  have hne : (translate_word w).length ≠ 0 := by
    intro h0
    rw [List.length_eq_zero] at h0
    rw [h0] at htok
    simp at htok
  have herr := renderGo_err (360 / ((translate_word w).length : ℝ)) (translate_word w) 0
    ⟨_, htok, hshape⟩
  simp [render, hne, herr]

/-- Witness for C9's amended theorem at the word "cat" (contains the
vowel 'a'). -/
theorem vowel_layout_fails_witness :
    (∃ c ∈ (['c', 'a', 't'] : List Char), c ∈ ['a', 'e', 'i', 'o']) ∧
      (render (translate_word ['c', 'a', 't'])).2.isSome :=
  ⟨⟨'a', by decide, by decide⟩,
    vowel_layout_fails.2 ['c', 'a', 't'] ⟨'a', by decide, by decide⟩⟩

/-- C10 (confirmed): on any word over a-z the transliterator's scan emits
one token per step, consuming one or two characters, so the token count
is between ⌈n/2⌉ and n (stated as `n ≤ 2k` and `k ≤ n`), and the output
is empty exactly when the input is. -/
theorem translate_word_bounds (w : List Char) (hw : ∀ c ∈ w, c ∈ alphabetChars) :
    (translate_word w).length ≤ w.length ∧
      w.length ≤ 2 * (translate_word w).length ∧
      (translate_word w = [] ↔ w = []) := by
  induction w using translate_word.induct with
  | case1 => simp [tw_nil]
  | case2 rest ih =>
      obtain ⟨ih1, ih2, _⟩ := ih (fun c hc => hw c (by simp [hc]))
      rw [tw_ch]
      refine ⟨by simpa using by omega, by simpa using by omega, by simp⟩
  | case3 rest ih =>
      obtain ⟨ih1, ih2, _⟩ := ih (fun c hc => hw c (by simp [hc]))
      rw [tw_ck]
      refine ⟨by simpa using by omega, by simpa using by omega, by simp⟩
  | case4 c2 rest h1 h2 h3 ih =>
      obtain ⟨ih1, ih2, _⟩ := ih (fun c hc => hw c (by simp at hc ⊢; tauto))
      rw [tw_hardc c2 rest h3]
      simp only [List.length_cons] at ih1 ih2 ⊢
      refine ⟨by omega, by omega, by simp⟩
  | case5 c2 rest h1 h2 h3 ih =>
      obtain ⟨ih1, ih2, _⟩ := ih (fun c hc => hw c (by simp at hc ⊢; tauto))
      rw [tw_softc c2 rest (fun h => h1 h) (fun h => h2 h) h3]
      simp only [List.length_cons] at ih1 ih2 ⊢
      refine ⟨by omega, by omega, by simp⟩
  | case6 => simp [tw_c_last]
  | case7 rest ih =>
      obtain ⟨ih1, ih2, _⟩ := ih (fun c hc => hw c (by simp [hc]))
      rw [tw_ng]
      refine ⟨by simpa using by omega, by simpa using by omega, by simp⟩
  | case8 rest ih =>
      obtain ⟨ih1, ih2, _⟩ := ih (fun c hc => hw c (by simp [hc]))
      rw [tw_qu]
      refine ⟨by simpa using by omega, by simpa using by omega, by simp⟩
  | case9 rest ih =>
      obtain ⟨ih1, ih2, _⟩ := ih (fun c hc => hw c (by simp [hc]))
      rw [tw_sh]
      refine ⟨by simpa using by omega, by simpa using by omega, by simp⟩
  | case10 rest ih =>
      obtain ⟨ih1, ih2, _⟩ := ih (fun c hc => hw c (by simp [hc]))
      rw [tw_th]
      refine ⟨by simpa using by omega, by simpa using by omega, by simp⟩
  | case11 ch rest hc1 hc2 hc3 hc4 hn hq hs htt heasy ih =>
      obtain ⟨ih1, ih2, _⟩ := ih (fun c hc => hw c (by simp [hc]))
      rw [tw_easy ch rest heasy]
      refine ⟨by simpa using by omega, by simpa using by omega, by simp⟩
  | case12 ch rest hc1 hc2 hc3 hc4 hn hq hs htt heasy hsnd ih =>
      obtain ⟨ih1, ih2, _⟩ := ih (fun c hc => hw c (by simp [hc]))
      rcases hsnd with rfl | rfl | rfl | rfl
      · rw [tw_n rest (fun r2 hr => hn r2 rfl hr)]
        refine ⟨by simpa using by omega, by simpa using by omega, by simp⟩
      · rw [tw_q rest (fun r2 hr => hq r2 rfl hr)]
        refine ⟨by simpa using by omega, by simpa using by omega, by simp⟩
      · rw [tw_s rest (fun r2 hr => hs r2 rfl hr)]
        refine ⟨by simpa using by omega, by simpa using by omega, by simp⟩
      · rw [tw_t rest (fun r2 hr => htt r2 rfl hr)]
        refine ⟨by simpa using by omega, by simpa using by omega, by simp⟩
  | case13 ch rest hc1 hc2 hc3 hc4 hn hq hs htt heasy hsnd ih =>
      exfalso
      have hch := hw ch (by simp)
      have hchc : ch ≠ 'c' := by
        intro hcc
        cases rest with
        | nil => exact hc4 hcc rfl
        | cons a r2 => exact hc3 a r2 hcc rfl
      fin_cases hch <;> simp_all [easyLetters]

/-- Witness for C10 at the word "cat". -/
theorem translate_word_bounds_witness :
    (∀ c ∈ (['c', 'a', 't'] : List Char), c ∈ alphabetChars) ∧
      ((translate_word ['c', 'a', 't']).length ≤ (['c', 'a', 't'] : List Char).length ∧
        (['c', 'a', 't'] : List Char).length ≤ 2 * (translate_word ['c', 'a', 't']).length ∧
        (translate_word ['c', 'a', 't'] = [] ↔ (['c', 'a', 't'] : List Char) = [])) :=
  ⟨by decide, translate_word_bounds ['c', 'a', 't'] (by decide)⟩
